import Mathlib

/-!
Verification of the LMMS plugin pin-connector routing core
(`include/AudioData.h`, routers of `PluginPinConnector`), with the
matrix/cache mutation layer (`PluginPinConnector.cpp`, not part of the
source tree here) modelled from the specification.

Audio samples (`sample_t = float`) are embedded as rationals `ℚ`: the
routers only copy, add and divide samples, and the properties under
study are about which samples are combined and by which count they are
divided, not about rounding of IEEE arithmetic.

Buffers are embedded as total functions:
  * a core ("host") buffer is `Nat → Nat → ℚ` (track channel, frame);
    track channel `2*i` / `2*i+1` is the L/R half of `SampleFrame`
    pair `i` of the `CoreAudioBus`;
  * a split plugin buffer is `Nat → Nat → ℚ` (plugin channel, frame).
The routers are value-level functions from old buffer contents to new
buffer contents; the C++ in-place writes become the returned function.
-/

set_option autoImplicit false

namespace Lmms

/--
The state of a `PluginPinConnector` as read by its routers:
`m_in.channelCount()` / `m_out.channelCount()`, the two pin matrices
(`m_in.enabled` / `m_out.enabled`, indexed track channel then plugin
channel), `m_trackChannelsUpperBound`, and the routed-channel cache
`m_routedChannels`. Matrices and cache are total Boolean functions so
that every cache/matrix combination the C++ object could hold is
representable.
-/
structure PinState where
  inChannelCount : Int
  outChannelCount : Int
  inEnabled : Nat → Nat → Bool
  outEnabled : Nat → Nat → Bool
  trackChannelsUpperBound : Nat
  routedChannels : Nat → Bool

/-- The sentinel `DynamicChannelCount` for a not-yet-known channel count. -/
def DynamicChannelCount : Int := -1

/-!
### Split-layout `Router::routeToPlugin` (AudioData.h lines 411-489)

For one plugin input channel `outChannel` and one track-channel pair,
the source dispatches on `enabledPins = (enabled(inChannel, outChannel) << 1)
| enabled(inChannel + 1, outChannel)`:
`0b00` adds nothing, `0b01` adds the R sample, `0b10` adds the L
sample, `0b11` adds `left + right`, incrementing `numRouted` by
0, 1, 1, 2 respectively.
-/

/-- Per-pair sample added to the accumulator of a plugin input channel,
one case per arm of the `switch (enabledPins)` in `routeToPlugin`. -/
def toPluginPairSample (l r : Bool) (xl xr : ℚ) : ℚ :=
  match l, r with
  | false, false => 0
  | false, true  => xr
  | true,  false => xl
  | true,  true  => xl + xr

/-- Per-pair increment of `numRouted` in `routeToPlugin`. -/
def toPluginPairCount (l r : Bool) : Nat :=
  match l, r with
  | false, false => 0
  | false, true  => 1
  | true,  false => 1
  | true,  true  => 2

/-- Value of the counter `numRouted` after the pair loop of
`routeToPlugin` for plugin input channel `p`; the loop runs over
`inSizeConstrained = m_trackChannelsUpperBound / 2` pairs. -/
def toPluginNumRouted (s : PinState) (p : Nat) : Nat :=
  ∑ i in Finset.range (s.trackChannelsUpperBound / 2),
    toPluginPairCount (s.inEnabled (2 * i) p) (s.inEnabled (2 * i + 1) p)

/-- Accumulated sample of plugin input channel `p` at frame `f` after
the pair loop of `routeToPlugin` (the buffer was zeroed first, so the
accumulator starts at `0`). -/
def toPluginAcc (s : PinState) (host : Nat → Nat → ℚ) (p f : Nat) : ℚ :=
  ∑ i in Finset.range (s.trackChannelsUpperBound / 2),
    toPluginPairSample (s.inEnabled (2 * i) p) (s.inEnabled (2 * i + 1) p)
      (host (2 * i) f) (host (2 * i + 1) f)

/-- Split-layout `routeToPlugin`: if `m_in.channelCount() == 0` the
function returns before touching the plugin buffer (`prev`), otherwise
plugin channel `p` holds the accumulated sum, divided by `numRouted`
when `numRouted > 1` ("Either no input channels were routed to this
output and output stays zeroed, or only one channel was routed and
normalization is not needed"). -/
def routeToPlugin (s : PinState) (host prev : Nat → Nat → ℚ) : Nat → Nat → ℚ :=
  if s.inChannelCount = 0 then prev
  else fun p f =>
    if toPluginNumRouted s p ≤ 1 then toPluginAcc s host p f
    else toPluginAcc s host p f / (toPluginNumRouted s p : ℚ)

/-!
### Split-layout `Router::routeFromPlugin` (AudioData.h lines 491-721)

The outer loop walks track-channel pairs up to
`inOutSizeConstrained = m_trackChannelsUpperBound / 2` and dispatches on
`routedChannels = (m_routedChannels[outChannel] << 1) |
m_routedChannels[outChannel + 1]`; `routeNx2` then zeroes (or, in
wet/dry mode, dry-scales or zeroes) exactly the routed channels of the
pair, accumulates every plugin output channel enabled for each routed
channel with per-channel counters `numRoutedL` / `numRoutedR`, and
normalizes each channel whose counter exceeds 1.
-/

/-- Value of `numRoutedL` (for an even `h`) or `numRoutedR` (odd `h`)
after the accumulation loop of `routeNx2`: the number of plugin output
channels `p < in.channels()` with `m_out.enabled(h, p)`. -/
def fromPluginNumRouted (s : PinState) (inChannels h : Nat) : Nat :=
  ∑ p in Finset.range inChannels, if s.outEnabled h p then 1 else 0

/-- Accumulated plugin audio for track channel `h` at frame `f` in
`routeNx2` (the channel was zeroed first). -/
def fromPluginAcc (s : PinState) (inChannels : Nat) (plug : Nat → Nat → ℚ)
    (h f : Nat) : ℚ :=
  ∑ p in Finset.range inChannels, if s.outEnabled h p then plug p f else 0

/-- Final sample of a routed track channel `h` in the non-wet/dry
`routeNx2`: the accumulated sum, divided by the per-channel counter
when it exceeds 1. -/
def fromPluginMix (s : PinState) (inChannels : Nat) (plug : Nat → Nat → ℚ)
    (h f : Nat) : ℚ :=
  if 1 < fromPluginNumRouted s inChannels h then
    fromPluginAcc s inChannels plug h f / (fromPluginNumRouted s inChannels h : ℚ)
  else fromPluginAcc s inChannels plug h f

/-- One track-channel pair processed by the non-wet/dry `routeNx2`
(AudioData.h lines 509-690): the four `match` arms are the four
`std::integral_constant` instantiations `rc = 0b00 / 0b10 / 0b01 / 0b11`.
A channel whose `rc` bit is clear keeps its original sample; a routed
channel is zeroed, accumulated and normalized (`fromPluginMix`). -/
def routeNx2 (s : PinState) (inChannels : Nat) (plug : Nat → Nat → ℚ)
    (outChannel : Nat) (origL origR : ℚ) (rcL rcR : Bool) (f : Nat) : ℚ × ℚ :=
  match rcL, rcR with
  | false, false => (origL, origR)
  | true,  false => (fromPluginMix s inChannels plug outChannel f, origR)
  | false, true  => (origL, fromPluginMix s inChannels plug (outChannel + 1) f)
  | true,  true  => (fromPluginMix s inChannels plug outChannel f,
                     fromPluginMix s inChannels plug (outChannel + 1) f)

/-- Split-layout non-wet/dry `routeFromPlugin`: no-op when
`m_out.channelCount() == 0`; pairs beyond `inOutSizeConstrained` are
never touched; each processed pair is rewritten by `routeNx2` keyed on
the routed-channel cache bits of its two channels. -/
def routeFromPlugin (s : PinState) (inChannels : Nat) (plug host : Nat → Nat → ℚ) :
    Nat → Nat → ℚ :=
  if s.outChannelCount = 0 then host
  else fun h f =>
    if h / 2 < s.trackChannelsUpperBound / 2 then
      if h % 2 = 0 then
        (routeNx2 s inChannels plug (2 * (h / 2)) (host (2 * (h / 2)) f)
          (host (2 * (h / 2) + 1) f) (s.routedChannels (2 * (h / 2)))
          (s.routedChannels (2 * (h / 2) + 1)) f).1
      else
        (routeNx2 s inChannels plug (2 * (h / 2)) (host (2 * (h / 2)) f)
          (host (2 * (h / 2) + 1) f) (s.routedChannels (2 * (h / 2)))
          (s.routedChannels (2 * (h / 2) + 1)) f).2
    else host h f

/-- Wet contribution added to a routed track channel `h` in the wet/dry
`routeNx2` (AudioData.h lines 620-655): nothing when `numRouted == 0`,
otherwise the accumulated wet signal divided by `numRouted` (even when
`numRouted == 1`: "for simplicity's sake that optimization is not taken
here") and scaled by the wet level. -/
def fromPluginWetAdd (s : PinState) (inChannels : Nat) (wet : ℚ)
    (plug : Nat → Nat → ℚ) (h f : Nat) : ℚ :=
  if fromPluginNumRouted s inChannels h = 0 then 0
  else (fromPluginAcc s inChannels plug h f
    / (fromPluginNumRouted s inChannels h : ℚ)) * wet

/-- One track-channel pair processed by the wet/dry `routeNx2`.
For `rc = 0b10` / `0b01` the routed channel's host sample is scaled by
the dry level (`outPtr[frame] *= m_dry`, lines 542/547) before the wet
signal is added; for `rc = 0b11` the source instead zeroes the host
buffer (`std::fill_n(outPtr, inOut.frames, SampleFrame{})`, line 533),
so both dry samples are dropped and only the wet contribution remains.
This asymmetry is embedded exactly as written. -/
def routeNx2WetDry (s : PinState) (inChannels : Nat) (wet dry : ℚ)
    (plug : Nat → Nat → ℚ) (outChannel : Nat) (origL origR : ℚ)
    (rcL rcR : Bool) (f : Nat) : ℚ × ℚ :=
  match rcL, rcR with
  | false, false => (origL, origR)
  | true,  false =>
      (origL * dry + fromPluginWetAdd s inChannels wet plug outChannel f, origR)
  | false, true  =>
      (origL, origR * dry + fromPluginWetAdd s inChannels wet plug (outChannel + 1) f)
  | true,  true  =>
      (fromPluginWetAdd s inChannels wet plug outChannel f,
       fromPluginWetAdd s inChannels wet plug (outChannel + 1) f)

/-- Split-layout wet/dry `routeFromPlugin`: same dispatch as the
non-wet/dry variant, with `routeNx2WetDry` processing each pair. -/
def routeFromPluginWetDry (s : PinState) (inChannels : Nat) (wet dry : ℚ)
    (plug host : Nat → Nat → ℚ) : Nat → Nat → ℚ :=
  if s.outChannelCount = 0 then host
  else fun h f =>
    if h / 2 < s.trackChannelsUpperBound / 2 then
      if h % 2 = 0 then
        (routeNx2WetDry s inChannels wet dry plug (2 * (h / 2))
          (host (2 * (h / 2)) f) (host (2 * (h / 2) + 1) f)
          (s.routedChannels (2 * (h / 2))) (s.routedChannels (2 * (h / 2) + 1)) f).1
      else
        (routeNx2WetDry s inChannels wet dry plug (2 * (h / 2))
          (host (2 * (h / 2)) f) (host (2 * (h / 2) + 1) f)
          (s.routedChannels (2 * (h / 2))) (s.routedChannels (2 * (h / 2) + 1)) f).2
    else host h f

/-!
### `SampleFrame` `Router::routeToPlugin` (AudioData.h lines 725-863)

The interleaved specialization requires `m_in.channelCount() == 2`.
Per pair it forms the 4-bit mask
`enabledPins = (enabled(in, 0) << 3) | (enabled(in + 1, 0) << 2) |
(enabled(in, 1) << 1) | enabled(in + 1, 1)` and dispatches to the 16
`route2x2` instantiations; `epL = enabledPins >> 2` governs plugin
channel 0 and `epR = enabledPins & 0b0011` governs plugin channel 1,
each a 2-bit mask with bit 1 = the pair's L track channel and bit 0 =
its R track channel.
-/

/-- Numeric value of one pin bit. -/
def boolBit (b : Bool) : Nat := if b then 1 else 0

/-- The 2-bit sub-mask of `enabledPins` governing plugin input channel
`c` for track-channel pair `i` (`epL` when `c = 0`, `epR` when `c = 1`). -/
def epToPlugin (s : PinState) (i c : Nat) : Nat :=
  2 * boolBit (s.inEnabled (2 * i) c) + boolBit (s.inEnabled (2 * i + 1) c)

/-- Increment of the `numRouted` counter in `route2x2`:
`if constexpr (ep == 0b11) { numRouted += 2; } else if constexpr (ep != 0)
{ ++numRouted; }`. -/
def ep2Count (b : Nat) : Nat :=
  if b = 3 then 2 else if b = 0 then 0 else 1

/-- Sample added by `route2x2` to an interleaved output slot:
`(ep & 0b01) != 0` adds the pair's R sample and `(ep & 0b10) != 0` adds
its L sample. -/
def ep2Sample (b : Nat) (xl xr : ℚ) : ℚ :=
  (if b % 2 = 1 then xr else 0) + (if b / 2 % 2 = 1 then xl else 0)

/-- Value of `numRoutedL` (`c = 0`) / `numRoutedR` (`c = 1`) after the
pair loop of the `SampleFrame` `routeToPlugin`. -/
def sfToPluginNumRouted (s : PinState) (c : Nat) : Nat :=
  ∑ i in Finset.range (s.trackChannelsUpperBound / 2), ep2Count (epToPlugin s i c)

/-- Accumulated sample of interleaved plugin channel `c` at frame `f`
after the pair loop (the output was zeroed first). -/
def sfToPluginAcc (s : PinState) (host : Nat → Nat → ℚ) (c f : Nat) : ℚ :=
  ∑ i in Finset.range (s.trackChannelsUpperBound / 2),
    ep2Sample (epToPlugin s i c) (host (2 * i) f) (host (2 * i + 1) f)

/-- `SampleFrame` `routeToPlugin`: early return leaving the output
buffer (`prev`) untouched when `m_in.channelCount() == 0`; otherwise
each of the two interleaved plugin channels is the accumulated sum,
divided by its counter when that counter exceeds 1. -/
def sfRouteToPlugin (s : PinState) (host prev : Nat → Nat → ℚ) : Nat → Nat → ℚ :=
  if s.inChannelCount = 0 then prev
  else fun c f =>
    if 1 < sfToPluginNumRouted s c then
      sfToPluginAcc s host c f / (sfToPluginNumRouted s c : ℚ)
    else sfToPluginAcc s host c f

/-!
### `SampleFrame` `Router::routeFromPlugin` (AudioData.h lines 865-999)

Per track-channel pair the mask is
`enabledPins = (enabled(out, 0) << 3) | (enabled(out, 1) << 2) |
(enabled(out + 1, 0) << 1) | enabled(out + 1, 1)`: `epL` holds the two
pin bits of the even track channel (bit 1 = plugin channel 0, bit 0 =
plugin channel 1) and `epR` those of the odd track channel. This
specialization reads the pin matrix directly, not the routed-channel
cache. `route2x2` overwrites (rather than accumulates) each sample:
`ep == 0b11` writes `(in0 + in1) / 2`, `0b01` writes plugin channel 1,
`0b10` writes plugin channel 0, `0b00` leaves the channel untouched.
-/

/-- The 2-bit sub-mask of `enabledPins` for track channel `h`
(`epL` for even `h`, `epR` for odd `h`). -/
def epFromPlugin (s : PinState) (h : Nat) : Nat :=
  2 * boolBit (s.outEnabled h 0) + boolBit (s.outEnabled h 1)

/-- `SampleFrame` non-wet/dry `routeFromPlugin`. -/
def sfRouteFromPlugin (s : PinState) (plug host : Nat → Nat → ℚ) :
    Nat → Nat → ℚ :=
  if s.outChannelCount = 0 then host
  else fun h f =>
    if h / 2 < s.trackChannelsUpperBound / 2 then
      if epFromPlugin s h = 3 then (plug 0 f + plug 1 f) / 2
      else if epFromPlugin s h = 1 then plug 1 f
      else if epFromPlugin s h = 2 then plug 0 f
      else host h f
    else host h f

/-- `SampleFrame` wet/dry `routeFromPlugin` (AudioData.h lines
894-927): every non-bypassed sample is
`outPtr * m_dry + (routed mix) * m_wet`, the routed mix being
`(in0 + in1) / 2`, `in1` or `in0` according to the 2-bit mask. -/
def sfRouteFromPluginWetDry (s : PinState) (wet dry : ℚ)
    (plug host : Nat → Nat → ℚ) : Nat → Nat → ℚ :=
  if s.outChannelCount = 0 then host
  else fun h f =>
    if h / 2 < s.trackChannelsUpperBound / 2 then
      if epFromPlugin s h = 3 then
        host h f * dry + ((plug 0 f + plug 1 f) / 2) * wet
      else if epFromPlugin s h = 1 then host h f * dry + plug 1 f * wet
      else if epFromPlugin s h = 2 then host h f * dry + plug 0 f * wet
      else host h f
    else host h f

/-!
### Pin matrices and the routed-channel cache

`PluginPinConnector::Matrix` holds `m_pins` (a
`std::vector<std::vector<BoolModel*>>`, outer index = track channel,
inner index = plugin channel) and `m_channelCount`. The bodies of
`Matrix::setTrackChannelCount`, `Matrix::setPluginChannelCount`,
`Matrix::setDefaultConnections` and
`PluginPinConnector::updateRoutedChannels` live in
`PluginPinConnector.cpp`, which is not part of this source tree; they
are modelled from the specification below.
-/

/-- A pin matrix: the persisted Boolean grid and the plugin-side
channel count (0 until known). -/
structure MatrixState where
  pins : List (List Bool)
  channelCount : Nat

/-- `Matrix::enabled(trackChannel, pluginChannel)`: cell lookup; cells
outside the current grid read as disconnected. -/
def MatrixState.enabled (m : MatrixState) (h p : Nat) : Bool :=
  (m.pins.getD h []).getD p false

/-- Modelled from the spec: the Default-Connection Policy
(`Matrix::setDefaultConnections`, §4.2; implementation not in the
source tree). For a mono plugin side both channels of the first host
pair connect to the single plugin channel; otherwise the first host
pair connects diagonally (host 0 to plugin 0, host 1 to plugin 1) and
every other cell is disconnected. -/
def defaultPins (trackChannels channelCount : Nat) : List (List Bool) :=
  (List.range trackChannels).map fun h =>
    (List.range channelCount).map fun p =>
      if channelCount = 1 then decide (h < 2)
      else decide (h < 2) && decide (p = h)

/-- A pin row resized to `count` plugin channels, preserving
overlapping cells and filling new cells disconnected. -/
def resizeRow (row : List Bool) (count : Nat) : List Bool :=
  (List.range count).map fun p => row.getD p false

/-- Modelled from the spec: `Matrix::setPluginChannelCount` (§4.1;
implementation not in the source tree). The first transition from the
unknown/zero count applies the Default-Connection Policy; subsequent
calls resize every row, preserving overlapping cells and filling new
cells disconnected. -/
def MatrixState.setPluginChannelCount (m : MatrixState)
    (trackChannels count : Nat) : MatrixState :=
  if m.channelCount = 0 then
    { pins := defaultPins trackChannels count, channelCount := count }
  else
    { pins := m.pins.map fun row => resizeRow row count, channelCount := count }

/-- Modelled from the spec: `Matrix::setTrackChannelCount` (§4.1;
implementation not in the source tree). Growing from zero rows is the
fresh initialization and applies the Default-Connection Policy; any
later resize keeps existing rows, discards excess rows when shrinking
and adds fully disconnected rows when growing. `m_channelCount` is
never changed. -/
def MatrixState.setTrackChannelCount (m : MatrixState) (count : Nat) : MatrixState :=
  if m.pins.length = 0 then
    { pins := defaultPins count m.channelCount, channelCount := m.channelCount }
  else
    { pins := (List.range count).map fun h =>
        m.pins.getD h (List.replicate m.channelCount false),
      channelCount := m.channelCount }

/-- Toggling one pin cell (`BoolModel::setValue` on
`m_pins[h][p]`); out-of-grid indices touch nothing. -/
def MatrixState.setPin (m : MatrixState) (h p : Nat) (v : Bool) : MatrixState :=
  { m with pins := m.pins.set h ((m.pins.getD h []).set p v) }

/-- The whole `PluginPinConnector`: input and output matrices, the
routed-channel cache `m_routedChannels` and the track channel count
backing the matrix rows. -/
structure ConnectorState where
  mIn : MatrixState
  mOut : MatrixState
  routedChannels : List Bool
  trackChannels : Nat

/-- Whether any plugin output channel is currently routed to track
channel `h` of output matrix `m` — the value the cache must hold
("`m_routedChannels[i] == true` iif `m_out.enabled(i, x) == true` for
any plugin channel x"). -/
def routedNow (m : MatrixState) (h : Nat) : Bool :=
  (m.pins.getD h []).any fun b => b

/-- Modelled from the spec: `updateRoutedChannels(trackChannel)`
(§4.3; implementation not in the source tree) — synchronous
recomputation of the cache entry of one track channel after a mutation
of that output-matrix row. -/
def updateRoutedChannels (s : ConnectorState) (h : Nat) : ConnectorState :=
  { s with routedChannels := s.routedChannels.set h (routedNow s.mOut h) }

/-- Modelled from the spec: `updateAllRoutedChannels` (§4.3;
implementation not in the source tree) — full synchronous
recomputation of the cache after a resize of the output matrix. -/
def updateAllRoutedChannels (s : ConnectorState) : ConnectorState :=
  { s with routedChannels := (List.range s.trackChannels).map fun h => routedNow s.mOut h }

/-- The mutations a `PluginPinConnector` undergoes after construction:
pin toggles on either matrix and the three channel-count setters. -/
inductive Op where
  | setInPin (h p : Nat) (v : Bool)
  | setOutPin (h p : Nat) (v : Bool)
  | pluginChannelCountIn (c : Nat)
  | pluginChannelCountOut (c : Nat)
  | trackChannelCount (c : Nat)

/-- Modelled from the spec: one mutation step. Every mutation of the
output matrix synchronously recomputes the affected routed-channel
cache entries before the state can next be read (§4.3). -/
def applyOp (s : ConnectorState) (op : Op) : ConnectorState :=
  match op with
  | .setInPin h p v => { s with mIn := s.mIn.setPin h p v }
  | .setOutPin h p v => updateRoutedChannels { s with mOut := s.mOut.setPin h p v } h
  | .pluginChannelCountIn c =>
      { s with mIn := s.mIn.setPluginChannelCount s.trackChannels c }
  | .pluginChannelCountOut c =>
      updateAllRoutedChannels
        { s with mOut := s.mOut.setPluginChannelCount s.trackChannels c }
  | .trackChannelCount c =>
      updateAllRoutedChannels
        { s with trackChannels := c,
                 mIn := s.mIn.setTrackChannelCount c,
                 mOut := s.mOut.setTrackChannelCount c }

/-- The state before the constructor body runs: empty matrices, empty
cache, no track channels. -/
def emptyConnector : ConnectorState :=
  { mIn := { pins := [], channelCount := 0 },
    mOut := { pins := [], channelCount := 0 },
    routedChannels := [],
    trackChannels := 0 }

/-- Modelled from the spec: the
`PluginPinConnector(pluginChannelCountIn, pluginChannelCountOut, parent)`
constructor — rows are sized to `DEFAULT_CHANNELS = 2` track channels,
then each plugin-side count is applied when it is already known
(a negative argument is the `DynamicChannelCount` sentinel and leaves
that count at 0 until a later setter call). -/
def initConnector (inCount outCount : Int) : ConnectorState :=
  let s0 := applyOp emptyConnector (.trackChannelCount 2)
  let s1 := if 0 ≤ inCount then applyOp s0 (.pluginChannelCountIn inCount.toNat) else s0
  if 0 ≤ outCount then applyOp s1 (.pluginChannelCountOut outCount.toNat) else s1

/-- A mutation sequence applied to a connector. -/
def runOps (s : ConnectorState) (ops : List Op) : ConnectorState :=
  ops.foldl applyOp s

/-!
### Concrete configurations and buffers used to instantiate the theorems
-/

/-- An all-zero audio buffer. -/
def zeroBuf : Nat → Nat → ℚ := fun _ _ => 0

/-- Diagonal pin function of the default 2x2 connection. -/
def idEnabled : Nat → Nat → Bool := fun h p => decide (h = p) && decide (h < 2)

/-- A 2-in/2-out connector with the default identity connections and a
consistent routed-channel cache. -/
def idState : PinState :=
  { inChannelCount := 2, outChannelCount := 2,
    inEnabled := idEnabled, outEnabled := idEnabled,
    trackChannelsUpperBound := 2,
    routedChannels := fun h => idEnabled h 0 || idEnabled h 1 }

/-- Output pins of `idState` after disabling pin (1, 1). -/
def halfOutEnabled : Nat → Nat → Bool := fun h p => decide (h = 0) && decide (p = 0)

/-- `idState` after the right-channel output pin (1, 1) is disabled and
the routed-channel cache is recomputed. -/
def idStateHalf : PinState :=
  { inChannelCount := 2, outChannelCount := 2,
    inEnabled := idEnabled, outEnabled := halfOutEnabled,
    trackChannelsUpperBound := 2,
    routedChannels := fun h => halfOutEnabled h 0 || halfOutEnabled h 1 }

/-- Both track channels connected to the single plugin input channel. -/
def twoIntoOne : PinState :=
  { inChannelCount := 1, outChannelCount := 0,
    inEnabled := fun h p => decide (h < 2) && decide (p = 0),
    outEnabled := fun _ _ => false,
    trackChannelsUpperBound := 2,
    routedChannels := fun _ => false }

/-- Exactly one pin per direction: track channel 1 into plugin input
channel 0, and plugin output channel 1 into track channel 0. -/
def singlePinState : PinState :=
  { inChannelCount := 1, outChannelCount := 2,
    inEnabled := fun h p => decide (h = 1) && decide (p = 0),
    outEnabled := fun h p => decide (h = 0) && decide (p = 1),
    trackChannelsUpperBound := 2,
    routedChannels := fun h => decide (h = 0) }

/-- A connector whose output matrix has channel count 0. -/
def noOutState : PinState :=
  { inChannelCount := 2, outChannelCount := 0,
    inEnabled := idEnabled, outEnabled := fun _ _ => false,
    trackChannelsUpperBound := 2,
    routedChannels := fun _ => false }

/-- Host buffer holding 10 on track channel 0 and 20 elsewhere. -/
def host1020 : Nat → Nat → ℚ := fun h _ => if h = 0 then 10 else 20

/-- Host buffer holding 5 everywhere. -/
def host5 : Nat → Nat → ℚ := fun _ _ => 5

/-- Plugin buffer holding 2 everywhere. -/
def plug2 : Nat → Nat → ℚ := fun _ _ => 2

/-- Plugin buffer holding `3 * p + 4` on plugin channel `p`. -/
def plugLin : Nat → Nat → ℚ := fun p _ => 3 * p + 4

/-- A 2-row mono matrix with only pin (0, 0) enabled. -/
def sampleMatrix : MatrixState := { pins := [[true], [false]], channelCount := 1 }

/-- The other channel of the track-channel pair of `h`. -/
def pairPartner (h : Nat) : Nat := if h % 2 = 0 then h + 1 else h - 1

/-!
## Lemmas and theorems
-/

/-- A sum over an even range regrouped into track-channel pairs. -/
theorem sum_range_double {M : Type*} [AddCommMonoid M] (f : ℕ → M) (n : ℕ) :
    ∑ h in Finset.range (2 * n), f h = ∑ i in Finset.range n, (f (2 * i) + f (2 * i + 1)) := by
  induction n with
  | zero => simp
  | succ n ih =>
    have h2 : 2 * (n + 1) = 2 * n + 1 + 1 := by ring
    rw [h2, Finset.sum_range_succ, Finset.sum_range_succ, ih, Finset.sum_range_succ,
      add_assoc]

/-- The per-pair `numRouted` increment counts each enabled pin once. -/
theorem toPluginPairCount_eq (l r : Bool) :
    toPluginPairCount l r = (if l then 1 else 0) + (if r then 1 else 0) := by
  cases l <;> cases r <;> rfl

/-- The per-pair accumulated sample is the sum of the enabled channels'
samples. -/
theorem toPluginPairSample_eq (l r : Bool) (xl xr : ℚ) :
    toPluginPairSample l r xl xr = (if l then xl else 0) + (if r then xr else 0) := by
  cases l <;> cases r <;> simp [toPluginPairSample]

/-- `numRouted` equals the number of host channels enabled for plugin
input channel `p`. -/
theorem toPluginNumRouted_eq_card (s : PinState) (p : Nat) :
    toPluginNumRouted s p =
      ((Finset.range (2 * (s.trackChannelsUpperBound / 2))).filter
        (fun h => s.inEnabled h p)).card := by
  rw [Finset.card_filter,
    sum_range_double (fun h => if s.inEnabled h p then 1 else 0)]
  exact Finset.sum_congr rfl fun i _ => toPluginPairCount_eq _ _

/-- The accumulator equals the sum of the enabled host channels' samples. -/
theorem toPluginAcc_eq_sum (s : PinState) (host : Nat → Nat → ℚ) (p f : Nat) :
    toPluginAcc s host p f =
      ∑ h in (Finset.range (2 * (s.trackChannelsUpperBound / 2))).filter
        (fun h => s.inEnabled h p), host h f := by
  rw [Finset.sum_filter,
    sum_range_double (fun h => if s.inEnabled h p then host h f else 0)]
  exact Finset.sum_congr rfl fun i _ => toPluginPairSample_eq _ _ _ _

/-- `numRoutedL` / `numRoutedR` equals the number of plugin output
channels enabled for track channel `h`. -/
theorem fromPluginNumRouted_eq_card (s : PinState) (inChannels h : Nat) :
    fromPluginNumRouted s inChannels h =
      ((Finset.range inChannels).filter (fun p => s.outEnabled h p)).card :=
  (Finset.card_filter _ _).symm

/-- The `routeNx2` accumulator equals the sum of the enabled plugin
output channels' samples. -/
theorem fromPluginAcc_eq_sum (s : PinState) (inChannels : Nat)
    (plug : Nat → Nat → ℚ) (h f : Nat) :
    fromPluginAcc s inChannels plug h f =
      ∑ p in (Finset.range inChannels).filter (fun p => s.outEnabled h p), plug p f :=
  (Finset.sum_filter _ _).symm

/-- Per-track-channel reading of the split non-wet/dry
`routeFromPlugin`: a channel is rewritten exactly when its pair is
within the constrained bound and its own routed-cache bit is set. -/
theorem routeFromPlugin_apply (s : PinState) (inChannels : Nat)
    (plug host : Nat → Nat → ℚ) (h f : Nat) :
    routeFromPlugin s inChannels plug host h f =
      if s.outChannelCount = 0 then host h f
      else if h < 2 * (s.trackChannelsUpperBound / 2) then
        if s.routedChannels h then fromPluginMix s inChannels plug h f else host h f
      else host h f := by
  unfold routeFromPlugin
  by_cases h0 : s.outChannelCount = 0
  · simp [h0]
  · simp only [h0, if_false]
    have hdiv : h / 2 < s.trackChannelsUpperBound / 2 ↔
        h < 2 * (s.trackChannelsUpperBound / 2) := by omega
    by_cases hb : h / 2 < s.trackChannelsUpperBound / 2
    · rw [if_pos hb, if_pos (hdiv.mp hb)]
      rcases Nat.mod_two_eq_zero_or_one h with hp | hp
      · have he : 2 * (h / 2) = h := by omega
        rw [if_pos hp, he]
        cases hL : s.routedChannels h <;> cases hR : s.routedChannels (h + 1) <;>
          simp [routeNx2, hL, hR]
      · have he : 2 * (h / 2) + 1 = h := by omega
        rw [if_neg (by omega), he]
        cases hL : s.routedChannels (2 * (h / 2)) <;> cases hR : s.routedChannels h <;>
          simp [routeNx2, hL, hR, he]
    · rw [if_neg hb, if_neg (fun hc => hb (hdiv.mpr hc))]

/-- Per-track-channel reading of the split wet/dry `routeFromPlugin`:
a routed channel receives the wet contribution on top of its dry-scaled
original sample, except that the original is dropped (zeroed by the
source) when the pair partner is routed as well. -/
theorem routeFromPluginWetDry_apply (s : PinState) (inChannels : Nat) (wet dry : ℚ)
    (plug host : Nat → Nat → ℚ) (h f : Nat) :
    routeFromPluginWetDry s inChannels wet dry plug host h f =
      if s.outChannelCount = 0 then host h f
      else if h < 2 * (s.trackChannelsUpperBound / 2) then
        if s.routedChannels h then
          (if s.routedChannels (pairPartner h) then 0 else host h f * dry) +
            fromPluginWetAdd s inChannels wet plug h f
        else host h f
      else host h f := by
  unfold routeFromPluginWetDry
  by_cases h0 : s.outChannelCount = 0
  · simp [h0]
  · simp only [h0, if_false]
    have hdiv : h / 2 < s.trackChannelsUpperBound / 2 ↔
        h < 2 * (s.trackChannelsUpperBound / 2) := by omega
    by_cases hb : h / 2 < s.trackChannelsUpperBound / 2
    · rw [if_pos hb, if_pos (hdiv.mp hb)]
      rcases Nat.mod_two_eq_zero_or_one h with hp | hp
      · have he : 2 * (h / 2) = h := by omega
        have hpp : pairPartner h = h + 1 := by simp [pairPartner, hp]
        rw [if_pos hp, he, hpp]
        cases hL : s.routedChannels h <;> cases hR : s.routedChannels (h + 1) <;>
          simp [routeNx2WetDry, hL, hR]
      · have he : 2 * (h / 2) + 1 = h := by omega
        have hpp : pairPartner h = 2 * (h / 2) := by
          unfold pairPartner
          rw [if_neg (by omega)]
          omega
        rw [if_neg (by omega), he, hpp]
        cases hL : s.routedChannels (2 * (h / 2)) <;> cases hR : s.routedChannels h <;>
          simp [routeNx2WetDry, hL, hR, he]
    · rw [if_neg hb, if_neg (fun hc => hb (hdiv.mpr hc))]

/-- C1: for every pin configuration with known plugin input channel
count and every plugin input channel `p`, `routeToPlugin` writes into
plugin channel `p` at every frame: 0 when no host channel pin is
enabled for `p`; the single enabled host channel's sample unscaled when
exactly one pin is enabled; and the arithmetic mean (sum divided by the
count) of the enabled host channels' samples when two or more pins are
enabled. -/
theorem C1_routeToPlugin_normalization (s : PinState) (host prev : Nat → Nat → ℚ)
    (p f : Nat) (hknown : s.inChannelCount ≠ 0) :
    (((Finset.range (2 * (s.trackChannelsUpperBound / 2))).filter
        (fun h => s.inEnabled h p)).card = 0 →
      routeToPlugin s host prev p f = 0) ∧
    (∀ h0 : Nat,
      (Finset.range (2 * (s.trackChannelsUpperBound / 2))).filter
        (fun h => s.inEnabled h p) = {h0} →
      routeToPlugin s host prev p f = host h0 f) ∧
    (2 ≤ ((Finset.range (2 * (s.trackChannelsUpperBound / 2))).filter
        (fun h => s.inEnabled h p)).card →
      routeToPlugin s host prev p f =
        (∑ h in (Finset.range (2 * (s.trackChannelsUpperBound / 2))).filter
            (fun h => s.inEnabled h p), host h f) /
          (((Finset.range (2 * (s.trackChannelsUpperBound / 2))).filter
            (fun h => s.inEnabled h p)).card : ℚ)) := by
  have hroute : routeToPlugin s host prev p f =
      if toPluginNumRouted s p ≤ 1 then toPluginAcc s host p f
      else toPluginAcc s host p f / (toPluginNumRouted s p : ℚ) := by
    unfold routeToPlugin
    rw [if_neg hknown]
  refine ⟨fun hc => ?_, fun h0 hs => ?_, fun hc => ?_⟩
  · have hF := Finset.card_eq_zero.mp hc
    rw [hroute, if_pos (by rw [toPluginNumRouted_eq_card, hc]; omega),
      toPluginAcc_eq_sum, hF, Finset.sum_empty]
  · have hc : ((Finset.range (2 * (s.trackChannelsUpperBound / 2))).filter
        (fun h => s.inEnabled h p)).card = 1 := by rw [hs]; rfl
    rw [hroute, if_pos (by rw [toPluginNumRouted_eq_card, hc]),
      toPluginAcc_eq_sum, hs, Finset.sum_singleton]
  · rw [hroute, if_neg (by rw [toPluginNumRouted_eq_card]; omega),
      toPluginAcc_eq_sum, toPluginNumRouted_eq_card]

/-- Witness for C1: both track channels, holding 10 and 20, routed to
the single plugin input channel yield 15. -/
theorem C1_witness :
    twoIntoOne.inChannelCount ≠ 0 ∧
      routeToPlugin twoIntoOne host1020 zeroBuf 0 0 = 15 := by
  refine ⟨by decide, ?_⟩
  have h2 : 2 ≤ ((Finset.range (2 * (twoIntoOne.trackChannelsUpperBound / 2))).filter
      (fun h => twoIntoOne.inEnabled h 0)).card := by decide
  rw [(C1_routeToPlugin_normalization twoIntoOne host1020 zeroBuf 0 0 (by decide)).2.2 h2]
  have hF : (Finset.range (2 * (twoIntoOne.trackChannelsUpperBound / 2))).filter
      (fun h => twoIntoOne.inEnabled h 0) = {0, 1} := by decide
  rw [hF, Finset.sum_pair (by omega)]
  norm_num [host1020]

/-- C2: for every host channel whose routed-channel cache entry is
false, `routeFromPlugin` (in either wet/dry mode) leaves every sample
of that channel exactly equal to its pre-call value, for every plugin
buffer content and every state of the other channels' pins. -/
theorem C2_bypass_unrouted (s : PinState) (inChannels : Nat) (wet dry : ℚ)
    (plug host : Nat → Nat → ℚ) (h f : Nat)
    (hbyp : s.routedChannels h = false) :
    routeFromPlugin s inChannels plug host h f = host h f ∧
      routeFromPluginWetDry s inChannels wet dry plug host h f = host h f := by
  constructor
  · rw [routeFromPlugin_apply]
    simp [hbyp]
  · rw [routeFromPluginWetDry_apply]
    simp [hbyp]

/-- Witness for C2: with output pin (1, 1) disabled, track channel 1 is
bypassed and keeps its sample. -/
theorem C2_witness :
    idStateHalf.routedChannels 1 = false ∧
      routeFromPlugin idStateHalf 2 plug2 host5 1 0 = host5 1 0 ∧
      routeFromPluginWetDry idStateHalf 2 1 1 plug2 host5 1 0 = host5 1 0 := by
  have h := C2_bypass_unrouted idStateHalf 2 1 1 plug2 host5 1 0 (by decide)
  exact ⟨by decide, h.1, h.2⟩

/-- C9: when the output matrix's plugin channel count is 0, every form
of `routeFromPlugin` returns immediately, leaving every sample of every
host channel unchanged; being total functions, the embeddings also show
no exceptional control flow is involved. -/
theorem C9_zero_out_channels_noop (s : PinState) (inChannels : Nat) (wet dry : ℚ)
    (plug host : Nat → Nat → ℚ) (h f : Nat)
    (hzero : s.outChannelCount = 0) :
    routeFromPlugin s inChannels plug host h f = host h f ∧
      routeFromPluginWetDry s inChannels wet dry plug host h f = host h f ∧
      sfRouteFromPlugin s plug host h f = host h f ∧
      sfRouteFromPluginWetDry s wet dry plug host h f = host h f := by
  unfold routeFromPlugin routeFromPluginWetDry sfRouteFromPlugin sfRouteFromPluginWetDry
  simp [hzero]

/-- Witness for C9: a connector with no plugin output channels leaves a
concrete host buffer untouched. -/
theorem C9_witness :
    noOutState.outChannelCount = 0 ∧
      routeFromPlugin noOutState 2 plug2 host5 0 0 = host5 0 0 ∧
      routeFromPluginWetDry noOutState 2 1 1 plug2 host5 0 0 = host5 0 0 ∧
      sfRouteFromPlugin noOutState plug2 host5 0 0 = host5 0 0 ∧
      sfRouteFromPluginWetDry noOutState 1 1 plug2 host5 0 0 = host5 0 0 := by
  have h := C9_zero_out_channels_noop noOutState 2 1 1 plug2 host5 0 0 (by decide)
  exact ⟨by decide, h.1, h.2.1, h.2.2.1, h.2.2.2⟩

/-- C8: when exactly one source channel is enabled for a destination
channel — one host pin into a plugin input channel for `routeToPlugin`,
or one plugin output pin into a routed host channel for the non-wet/dry
`routeFromPlugin` — the destination receives the source channel's
samples exactly, with no division or scaling applied. -/
theorem C8_single_source_passthrough (s : PinState) (host prev plug : Nat → Nat → ℚ)
    (inChannels p f h g h0 p0 : Nat)
    (hknown : s.inChannelCount ≠ 0)
    (hin : (Finset.range (2 * (s.trackChannelsUpperBound / 2))).filter
      (fun k => s.inEnabled k p) = {h0})
    (houtcc : s.outChannelCount ≠ 0)
    (hbound : h < 2 * (s.trackChannelsUpperBound / 2))
    (hrouted : s.routedChannels h = true)
    (hout : (Finset.range inChannels).filter (fun q => s.outEnabled h q) = {p0}) :
    routeToPlugin s host prev p f = host h0 f ∧
      routeFromPlugin s inChannels plug host h g = plug p0 g := by
  constructor
  · unfold routeToPlugin
    rw [if_neg hknown]
    have hc : toPluginNumRouted s p = 1 := by
      rw [toPluginNumRouted_eq_card, hin]
      rfl
    rw [if_pos (by omega), toPluginAcc_eq_sum, hin, Finset.sum_singleton]
  · rw [routeFromPlugin_apply, if_neg houtcc, if_pos hbound, if_pos (by rw [hrouted])]
    have hn : fromPluginNumRouted s inChannels h = 1 := by
      rw [fromPluginNumRouted_eq_card, hout]
      rfl
    unfold fromPluginMix
    rw [hn, if_neg (by omega), fromPluginAcc_eq_sum, hout, Finset.sum_singleton]

/-- Witness for C8: track channel 1 alone feeds plugin input 0, and
plugin output 1 alone feeds track channel 0; both samples pass through
unscaled. -/
theorem C8_witness :
    routeToPlugin singlePinState host1020 zeroBuf 0 0 = host1020 1 0 ∧
      routeFromPlugin singlePinState 2 plugLin host1020 0 0 = plugLin 1 0 :=
  C8_single_source_passthrough singlePinState host1020 zeroBuf plugLin 2 0 0 0 0 1 1
    (by decide) (by decide) (by decide) (by decide) (by decide) (by decide)

/-- C3: with the 2x2 identity configuration and a plugin that doubles
every sample, `routeToPlugin` followed by `routeFromPlugin` yields
exactly double the original host values on both channels at every
frame; after disabling the right-channel output pin (and recomputing
the cache), the right host channel keeps its original value while the
left shows exactly double. -/
theorem C3_identity_round_trip (host prev : Nat → Nat → ℚ) (f : Nat) :
    (routeFromPlugin idState 2
        (fun p g => 2 * routeToPlugin idState host prev p g) host 0 f = 2 * host 0 f ∧
      routeFromPlugin idState 2
        (fun p g => 2 * routeToPlugin idState host prev p g) host 1 f = 2 * host 1 f) ∧
    (routeFromPlugin idStateHalf 2
        (fun p g => 2 * routeToPlugin idState host prev p g) host 0 f = 2 * host 0 f ∧
      routeFromPlugin idStateHalf 2
        (fun p g => 2 * routeToPlugin idState host prev p g) host 1 f = host 1 f) := by
  have ht0 : ∀ g, routeToPlugin idState host prev 0 g = host 0 g := by
    intro g
    unfold routeToPlugin toPluginNumRouted toPluginAcc
    norm_num [idState, idEnabled, Finset.sum_range_one, toPluginPairCount,
      toPluginPairSample]
  have ht1 : ∀ g, routeToPlugin idState host prev 1 g = host 1 g := by
    intro g
    unfold routeToPlugin toPluginNumRouted toPluginAcc
    norm_num [idState, idEnabled, Finset.sum_range_one, toPluginPairCount,
      toPluginPairSample]
  have hf0 : ∀ (plg : Nat → Nat → ℚ) g,
      routeFromPlugin idState 2 plg host 0 g = plg 0 g := by
    intro plg g
    rw [routeFromPlugin_apply]
    norm_num [idState, idEnabled, fromPluginMix, fromPluginNumRouted, fromPluginAcc,
      Finset.sum_range_succ]
  have hf1 : ∀ (plg : Nat → Nat → ℚ) g,
      routeFromPlugin idState 2 plg host 1 g = plg 1 g := by
    intro plg g
    rw [routeFromPlugin_apply]
    norm_num [idState, idEnabled, fromPluginMix, fromPluginNumRouted, fromPluginAcc,
      Finset.sum_range_succ]
  have hh0 : ∀ (plg : Nat → Nat → ℚ) g,
      routeFromPlugin idStateHalf 2 plg host 0 g = plg 0 g := by
    intro plg g
    rw [routeFromPlugin_apply]
    norm_num [idStateHalf, halfOutEnabled, fromPluginMix, fromPluginNumRouted,
      fromPluginAcc, Finset.sum_range_succ]
  have hh1 : ∀ (plg : Nat → Nat → ℚ) g,
      routeFromPlugin idStateHalf 2 plg host 1 g = host 1 g := by
    intro plg g
    rw [routeFromPlugin_apply]
    norm_num [idStateHalf, halfOutEnabled]
  refine ⟨⟨?_, ?_⟩, ?_, ?_⟩
  · rw [hf0, ht0]
  · rw [hf1, ht1]
  · rw [hh0, ht0]
  · rw [hh1]

/-- C7: evaluation of the split wet/dry `routeFromPlugin` at a
configuration where both channels of the pair are routed. The claimed
formula `original * dry + (mean * wet)` would give
`5 * 1 + (2 / 1) * 1 = 7`, but the code zeroes the host buffer instead
of dry-scaling it when `rc == 0b11` (AudioData.h line 533) and produces
2: the dry signal is dropped. -/
theorem C7_wetdry_rc11_drops_dry :
    routeFromPluginWetDry idState 2 1 1 plug2 host5 0 0 = 2 ∧
      host5 0 0 * 1 + (plug2 0 0 / 1) * 1 = 7 := by
  constructor
  · rw [routeFromPluginWetDry_apply]
    norm_num [idState, idEnabled, pairPartner, fromPluginWetAdd, fromPluginNumRouted,
      fromPluginAcc, plug2, host5, Finset.sum_range_succ]
  · norm_num [host5, plug2]

/-- Counterexample for C10: in wet/dry mode with both channels of a
pair routed (cache consistent), the split router and the `SampleFrame`
router disagree — the split router drops the dry signal (2) while the
`SampleFrame` router keeps it (7). -/
theorem C10_wetdry_counterexample :
    routeFromPluginWetDry idState 2 1 1 plug2 host5 0 0 ≠
      sfRouteFromPluginWetDry idState 1 1 plug2 host5 0 0 := by
  have h1 : routeFromPluginWetDry idState 2 1 1 plug2 host5 0 0 = 2 := by
    rw [routeFromPluginWetDry_apply]
    norm_num [idState, idEnabled, pairPartner, fromPluginWetAdd, fromPluginNumRouted,
      fromPluginAcc, plug2, host5, Finset.sum_range_succ]
  have h2 : sfRouteFromPluginWetDry idState 1 1 plug2 host5 0 0 = 7 := by
    unfold sfRouteFromPluginWetDry
    norm_num [idState, idEnabled, epFromPlugin, boolBit, plug2, host5]
  rw [h1, h2]
  norm_num

/-- C10 (amended): for every 2-in/2-out configuration with a consistent
routed-channel cache, the `SampleFrame` (interleaved, bit-enumerated)
router computes the same samples as the generic split-layout router for
`routeToPlugin` and for the non-wet/dry `routeFromPlugin`; wet/dry
`routeFromPlugin` is excluded (see the counterexample). -/
theorem C10_nonwetdry_equivalence (s : PinState) (host prev plug : Nat → Nat → ℚ)
    (c h f : Nat) (hc : c < 2)
    (hcons : ∀ k, s.routedChannels k = (s.outEnabled k 0 || s.outEnabled k 1)) :
    sfRouteToPlugin s host prev c f = routeToPlugin s host prev c f ∧
      sfRouteFromPlugin s plug host h f = routeFromPlugin s 2 plug host h f := by
  constructor
  · have hcount : ∀ i, ep2Count (epToPlugin s i c) =
        toPluginPairCount (s.inEnabled (2 * i) c) (s.inEnabled (2 * i + 1) c) := by
      intro i
      unfold ep2Count epToPlugin boolBit toPluginPairCount
      cases s.inEnabled (2 * i) c <;> cases s.inEnabled (2 * i + 1) c <;> rfl
    have hsample : ∀ i g, ep2Sample (epToPlugin s i c) (host (2 * i) g)
        (host (2 * i + 1) g) =
        toPluginPairSample (s.inEnabled (2 * i) c) (s.inEnabled (2 * i + 1) c)
          (host (2 * i) g) (host (2 * i + 1) g) := by
      intro i g
      unfold ep2Sample epToPlugin boolBit toPluginPairSample
      cases s.inEnabled (2 * i) c <;> cases s.inEnabled (2 * i + 1) c <;>
        norm_num [add_comm]
    have hn : sfToPluginNumRouted s c = toPluginNumRouted s c :=
      Finset.sum_congr rfl fun i _ => hcount i
    have ha : sfToPluginAcc s host c f = toPluginAcc s host c f :=
      Finset.sum_congr rfl fun i _ => hsample i f
    unfold sfRouteToPlugin routeToPlugin
    by_cases h0 : s.inChannelCount = 0
    · rw [if_pos h0, if_pos h0]
    · rw [if_neg h0, if_neg h0, hn, ha]
      rcases Nat.lt_or_ge 1 (toPluginNumRouted s c) with hlt | hle
      · rw [if_pos hlt, if_neg (by omega)]
      · rw [if_neg (by omega), if_pos (by omega)]
  · rw [routeFromPlugin_apply]
    unfold sfRouteFromPlugin
    by_cases h0 : s.outChannelCount = 0
    · simp [h0]
    · simp only [h0, if_false]
      have hdiv : h / 2 < s.trackChannelsUpperBound / 2 ↔
          h < 2 * (s.trackChannelsUpperBound / 2) := by omega
      by_cases hb : h / 2 < s.trackChannelsUpperBound / 2
      · rw [if_pos hb, if_pos (hdiv.mp hb), hcons h]
        have hn2 : fromPluginNumRouted s 2 h =
            (if s.outEnabled h 0 then 1 else 0) + (if s.outEnabled h 1 then 1 else 0) := by
          unfold fromPluginNumRouted
          rw [Finset.sum_range_succ, Finset.sum_range_one]
        have ha2 : fromPluginAcc s 2 plug h f =
            (if s.outEnabled h 0 then plug 0 f else 0) +
              (if s.outEnabled h 1 then plug 1 f else 0) := by
          unfold fromPluginAcc
          rw [Finset.sum_range_succ, Finset.sum_range_one]
        cases e0 : s.outEnabled h 0 <;> cases e1 : s.outEnabled h 1 <;>
          norm_num [epFromPlugin, boolBit, e0, e1, fromPluginMix, hn2, ha2]
      · rw [if_neg hb, if_neg (fun hcontra => hb (hdiv.mpr hcontra))]

/-- Witness for C10 (amended): both routers agree on the identity 2x2
configuration. -/
theorem C10_witness :
    (0 : Nat) < 2 ∧
      sfRouteToPlugin idState host5 zeroBuf 0 0 = routeToPlugin idState host5 zeroBuf 0 0 ∧
      sfRouteFromPlugin idState plug2 host5 0 0 = routeFromPlugin idState 2 plug2 host5 0 0 := by
  have h := C10_nonwetdry_equivalence idState host5 zeroBuf plug2 0 0 0 (by omega)
    (fun k => rfl)
  exact ⟨by omega, h.1, h.2⟩

/-!
### Lemmas about the matrix/cache state machine
-/

/-- Reading a cell of an updated list at the updated index. -/
theorem getD_set_self {α : Type*} (l : List α) (i : Nat) (a d : α)
    (hi : i < l.length) : (l.set i a).getD i d = a := by
  rw [List.getD_eq_getElem _ _ (by simpa using hi)]
  exact List.getElem_set_self _

/-- Reading a cell of an updated list at another index. -/
theorem getD_set_ne {α : Type*} (l : List α) (i j : Nat) (a : α) (d : α)
    (hij : i ≠ j) : (l.set i a).getD j d = l.getD j d := by
  by_cases hj : j < l.length
  · rw [List.getD_eq_getElem _ _ (by simpa using hj), List.getD_eq_getElem _ _ hj]
    exact List.getElem_set_ne hij _
  · rw [List.getD_eq_default _ _ (by simpa using le_of_not_lt hj),
      List.getD_eq_default _ _ (le_of_not_lt hj)]

/-- Reading a mapped range at an index. -/
theorem getD_range_map {α : Type*} (f : Nat → α) (n k : Nat) (d : α) :
    ((List.range n).map f).getD k d = if k < n then f k else d := by
  by_cases hk : k < n
  · rw [if_pos hk, List.getD_eq_getElem _ _ (by simpa using hk), List.getElem_map,
      List.getElem_range]
  · rw [if_neg hk, List.getD_eq_default _ _ (by simpa using le_of_not_lt hk)]

/-- A Boolean row holds a set bit iff some position reads `true`. -/
theorem any_id_iff_exists_getD (l : List Bool) :
    (l.any fun b => b) = true ↔ ∃ p, l.getD p false = true := by
  rw [List.any_eq_true]
  constructor
  · rintro ⟨x, hx, hxt⟩
    obtain ⟨i, hi, rfl⟩ := List.mem_iff_getElem.mp hx
    exact ⟨i, by rw [List.getD_eq_getElem _ _ hi]; exact hxt⟩
  · rintro ⟨p, hp⟩
    by_cases hlen : p < l.length
    · rw [List.getD_eq_getElem _ _ hlen] at hp
      exact ⟨l[p], List.getElem_mem hlen, hp⟩
    · rw [List.getD_eq_default _ _ (le_of_not_lt hlen)] at hp
      exact absurd hp (by simp)

/-- No plugin output channel is routed to a track channel outside the
matrix rows. -/
theorem routedNow_oob (m : MatrixState) (h : Nat)
    (hh : m.pins.length ≤ h) : routedNow m h = false := by
  unfold routedNow
  rw [List.getD_eq_default _ _ hh]
  rfl

/-- The default grid has one row per track channel. -/
theorem defaultPins_length (tc cc : Nat) : (defaultPins tc cc).length = tc := by
  simp [defaultPins]

/-- Every default row has one cell per plugin channel. -/
theorem defaultPins_row_length (tc cc : Nat) :
    ∀ row ∈ defaultPins tc cc, row.length = cc := by
  intro row hrow
  obtain ⟨h, _, rfl⟩ := List.mem_map.mp hrow
  simp

/-- `setPluginChannelCount` row count. -/
theorem setPluginChannelCount_pins_length (m : MatrixState) (tc c : Nat) :
    (m.setPluginChannelCount tc c).pins.length =
      if m.channelCount = 0 then tc else m.pins.length := by
  unfold MatrixState.setPluginChannelCount
  split <;> simp [defaultPins]

/-- `setPluginChannelCount` sets the plugin channel count. -/
theorem setPluginChannelCount_channelCount (m : MatrixState) (tc c : Nat) :
    (m.setPluginChannelCount tc c).channelCount = c := by
  unfold MatrixState.setPluginChannelCount
  split <;> rfl

/-- Every row of a plugin-side-resized matrix has the new width. -/
theorem setPluginChannelCount_row_length (m : MatrixState) (tc c : Nat) :
    ∀ row ∈ (m.setPluginChannelCount tc c).pins, row.length = c := by
  unfold MatrixState.setPluginChannelCount
  split
  · exact defaultPins_row_length tc c
  · intro row hrow
    obtain ⟨r, _, rfl⟩ := List.mem_map.mp hrow
    simp [resizeRow]

/-- `setTrackChannelCount` row count. -/
theorem setTrackChannelCount_pins_length (m : MatrixState) (c : Nat) :
    (m.setTrackChannelCount c).pins.length = c := by
  unfold MatrixState.setTrackChannelCount
  split <;> simp [defaultPins]

/-- `setTrackChannelCount` keeps the plugin channel count. -/
theorem setTrackChannelCount_channelCount (m : MatrixState) (c : Nat) :
    (m.setTrackChannelCount c).channelCount = m.channelCount := by
  unfold MatrixState.setTrackChannelCount
  split <;> rfl

/-- Every row of a track-side-resized matrix keeps the plugin width. -/
theorem setTrackChannelCount_row_length (m : MatrixState) (c : Nat)
    (hrows : ∀ row ∈ m.pins, row.length = m.channelCount) :
    ∀ row ∈ (m.setTrackChannelCount c).pins, row.length = m.channelCount := by
  unfold MatrixState.setTrackChannelCount
  split
  · exact defaultPins_row_length c m.channelCount
  · intro row hrow
    obtain ⟨h, _, rfl⟩ := List.mem_map.mp hrow
    by_cases hh : h < m.pins.length
    · rw [List.getD_eq_getElem _ _ hh]
      exact hrows _ (List.getElem_mem hh)
    · rw [List.getD_eq_default _ _ (le_of_not_lt hh)]
      exact List.length_replicate _ _

/-- `setPin` keeps the row count. -/
theorem setPin_pins_length (m : MatrixState) (h p : Nat) (v : Bool) :
    (m.setPin h p v).pins.length = m.pins.length :=
  List.length_set _ _ _

/-- `setPin` keeps every row's width. -/
theorem setPin_row_length (m : MatrixState) (h p : Nat) (v : Bool)
    (hrows : ∀ row ∈ m.pins, row.length = m.channelCount) :
    ∀ row ∈ (m.setPin h p v).pins, row.length = m.channelCount := by
  unfold MatrixState.setPin
  by_cases hh : h < m.pins.length
  · intro row hrow
    rcases List.mem_or_eq_of_mem_set hrow with h1 | h1
    · exact hrows _ h1
    · rw [h1, List.length_set, List.getD_eq_getElem _ _ hh]
      exact hrows _ (List.getElem_mem hh)
  · rw [List.set_eq_of_length_le (le_of_not_lt hh)]
    exact hrows

/-- `setPin` on the output matrix leaves other rows unread by the
cache recomputation. -/
theorem setPin_getD_ne (m : MatrixState) (h p k : Nat) (v : Bool) (hk : h ≠ k) :
    (m.setPin h p v).pins.getD k [] = m.pins.getD k [] :=
  getD_set_ne _ _ _ _ _ hk

/-- The cache-consistency invariant maintained by every mutation: the
cache has one entry per track channel, the output matrix one row per
track channel, and every cache entry equals the disjunction of its
output-matrix row. -/
def cacheInvariant (s : ConnectorState) : Prop :=
  s.routedChannels.length = s.trackChannels ∧
  s.mOut.pins.length = s.trackChannels ∧
  ∀ h, s.routedChannels.getD h false = routedNow s.mOut h

/-- The pre-constructor state satisfies the cache invariant. -/
theorem cacheInvariant_empty : cacheInvariant emptyConnector := by
  refine ⟨rfl, rfl, fun h => ?_⟩
  simp [emptyConnector, routedNow]

/-- A full synchronous cache recomputation establishes the invariant
whenever the output matrix has one row per track channel. -/
theorem cacheInvariant_updateAll (s : ConnectorState)
    (hplen : s.mOut.pins.length = s.trackChannels) :
    cacheInvariant (updateAllRoutedChannels s) := by
  refine ⟨by simp [updateAllRoutedChannels], hplen, fun k => ?_⟩
  show ((List.range s.trackChannels).map fun h => routedNow s.mOut h).getD k false =
    routedNow s.mOut k
  rw [getD_range_map]
  by_cases hk : k < s.trackChannels
  · rw [if_pos hk]
  · rw [if_neg hk, routedNow_oob _ _ (by omega)]

/-- Every mutation preserves the cache invariant: the routed-channel
cache is recomputed synchronously as part of every mutation of the
output matrix. -/
theorem cacheInvariant_applyOp (s : ConnectorState) (op : Op)
    (hs : cacheInvariant s) : cacheInvariant (applyOp s op) := by
  obtain ⟨hlen, hplen, hval⟩ := hs
  cases op with
  | setInPin h p v => exact ⟨hlen, hplen, hval⟩
  | setOutPin h p v =>
    refine ⟨?_, ?_, fun k => ?_⟩
    · show (s.routedChannels.set h (routedNow (s.mOut.setPin h p v) h)).length =
        s.trackChannels
      rw [List.length_set]
      exact hlen
    · show (s.mOut.setPin h p v).pins.length = s.trackChannels
      rw [setPin_pins_length]
      exact hplen
    · show (s.routedChannels.set h (routedNow (s.mOut.setPin h p v) h)).getD k false =
        routedNow (s.mOut.setPin h p v) k
      by_cases hk : h = k
      · subst hk
        by_cases hh : h < s.routedChannels.length
        · rw [getD_set_self _ _ _ _ hh]
        · have hohh : s.mOut.pins.length ≤ h := by omega
          rw [List.set_eq_of_length_le (le_of_not_lt hh), hval h,
            routedNow_oob _ _ hohh, routedNow_oob _ _ (by rw [setPin_pins_length]; exact hohh)]
      · rw [getD_set_ne _ _ _ _ _ hk, hval k]
        unfold routedNow
        rw [setPin_getD_ne _ _ _ _ _ hk]
  | pluginChannelCountIn c => exact ⟨hlen, hplen, hval⟩
  | pluginChannelCountOut c =>
    refine cacheInvariant_updateAll
      { s with mOut := s.mOut.setPluginChannelCount s.trackChannels c } ?_
    show (s.mOut.setPluginChannelCount s.trackChannels c).pins.length = s.trackChannels
    rw [setPluginChannelCount_pins_length]
    split <;> omega
  | trackChannelCount c =>
    refine cacheInvariant_updateAll
      { s with trackChannels := c, mIn := s.mIn.setTrackChannelCount c,
               mOut := s.mOut.setTrackChannelCount c } ?_
    show (s.mOut.setTrackChannelCount c).pins.length = c
    exact setTrackChannelCount_pins_length _ _

/-- The cache invariant holds along every mutation sequence. -/
theorem cacheInvariant_runOps (s : ConnectorState) (ops : List Op)
    (hs : cacheInvariant s) : cacheInvariant (runOps s ops) := by
  induction ops generalizing s with
  | nil => exact hs
  | cons op rest ih => exact ih _ (cacheInvariant_applyOp s op hs)

/-- The constructor establishes the cache invariant. -/
theorem cacheInvariant_init (i o : Int) : cacheInvariant (initConnector i o) := by
  unfold initConnector
  have h0 : cacheInvariant (applyOp emptyConnector (Op.trackChannelCount 2)) :=
    cacheInvariant_applyOp _ _ cacheInvariant_empty
  by_cases hi : (0 : Int) ≤ i <;> by_cases ho : (0 : Int) ≤ o <;>
    simp only [hi, ho, if_true, if_false] <;>
    first
      | exact cacheInvariant_applyOp _ _ (cacheInvariant_applyOp _ _ h0)
      | exact cacheInvariant_applyOp _ _ h0
      | exact h0

/-- C4: in every reachable state of a connector — after the constructor
and any sequence of pin toggles and plugin/track channel-count changes —
the routed-channel cache entry of track channel `h` is set iff some
plugin output channel is enabled for `h` in the output matrix, because
the cache is recomputed synchronously as part of every output-matrix
mutation. -/
theorem C4_routed_cache_consistency (i o : Int) (ops : List Op) (h : Nat) :
    (runOps (initConnector i o) ops).routedChannels.getD h false = true ↔
      ∃ p, (runOps (initConnector i o) ops).mOut.enabled h p = true := by
  have hinv := cacheInvariant_runOps _ ops (cacheInvariant_init i o)
  rw [hinv.2.2 h]
  unfold routedNow MatrixState.enabled
  exact any_id_iff_exists_getD _

/-- C5: fresh initialization with 2 track channels applies the
default-connection policy: a 2-in/2-out plugin gets the identity
diagonal in both matrices; a 1-in/1-out plugin gets both host channels
connected to its single channel in both matrices; a 1-in/4-out plugin
gets host 0 to output 0 and host 1 to output 1 with all other output
pins disabled. -/
theorem C5_fresh_default_connections :
    ((initConnector 2 2).mIn.enabled 0 0 = true ∧
      (initConnector 2 2).mIn.enabled 0 1 = false ∧
      (initConnector 2 2).mIn.enabled 1 0 = false ∧
      (initConnector 2 2).mIn.enabled 1 1 = true ∧
      (initConnector 2 2).mOut.enabled 0 0 = true ∧
      (initConnector 2 2).mOut.enabled 0 1 = false ∧
      (initConnector 2 2).mOut.enabled 1 0 = false ∧
      (initConnector 2 2).mOut.enabled 1 1 = true) ∧
    ((initConnector 1 1).mIn.enabled 0 0 = true ∧
      (initConnector 1 1).mIn.enabled 1 0 = true ∧
      (initConnector 1 1).mOut.enabled 0 0 = true ∧
      (initConnector 1 1).mOut.enabled 1 0 = true) ∧
    ((initConnector 1 4).mOut.enabled 0 0 = true ∧
      (initConnector 1 4).mOut.enabled 0 1 = false ∧
      (initConnector 1 4).mOut.enabled 0 2 = false ∧
      (initConnector 1 4).mOut.enabled 0 3 = false ∧
      (initConnector 1 4).mOut.enabled 1 0 = false ∧
      (initConnector 1 4).mOut.enabled 1 1 = true ∧
      (initConnector 1 4).mOut.enabled 1 2 = false ∧
      (initConnector 1 4).mOut.enabled 1 3 = false) := by
  decide

/-- The dimension invariant: one outer entry per track channel in each
matrix, and every row as wide as its matrix's plugin channel count. -/
def dimsInvariant (s : ConnectorState) : Prop :=
  s.mIn.pins.length = s.trackChannels ∧
  s.mOut.pins.length = s.trackChannels ∧
  (∀ row ∈ s.mIn.pins, row.length = s.mIn.channelCount) ∧
  (∀ row ∈ s.mOut.pins, row.length = s.mOut.channelCount)

/-- The pre-constructor state satisfies the dimension invariant. -/
theorem dimsInvariant_empty : dimsInvariant emptyConnector :=
  ⟨rfl, rfl, by simp [emptyConnector], by simp [emptyConnector]⟩

/-- Every mutation preserves the dimension invariant. -/
theorem dimsInvariant_applyOp (s : ConnectorState) (op : Op)
    (hs : dimsInvariant s) : dimsInvariant (applyOp s op) := by
  obtain ⟨h1, h2, h3, h4⟩ := hs
  cases op with
  | setInPin h p v =>
    refine ⟨?_, h2, ?_, h4⟩
    · show (s.mIn.setPin h p v).pins.length = s.trackChannels
      rw [setPin_pins_length]
      exact h1
    · exact setPin_row_length _ _ _ _ h3
  | setOutPin h p v =>
    refine ⟨h1, ?_, h3, ?_⟩
    · show (s.mOut.setPin h p v).pins.length = s.trackChannels
      rw [setPin_pins_length]
      exact h2
    · exact setPin_row_length _ _ _ _ h4
  | pluginChannelCountIn c =>
    refine ⟨?_, h2, ?_, h4⟩
    · show (s.mIn.setPluginChannelCount s.trackChannels c).pins.length = s.trackChannels
      rw [setPluginChannelCount_pins_length]
      split <;> omega
    · intro row hrow
      show row.length = (s.mIn.setPluginChannelCount s.trackChannels c).channelCount
      rw [setPluginChannelCount_channelCount]
      exact setPluginChannelCount_row_length _ _ _ row hrow
  | pluginChannelCountOut c =>
    refine ⟨h1, ?_, h3, ?_⟩
    · show (s.mOut.setPluginChannelCount s.trackChannels c).pins.length = s.trackChannels
      rw [setPluginChannelCount_pins_length]
      split <;> omega
    · intro row hrow
      show row.length = (s.mOut.setPluginChannelCount s.trackChannels c).channelCount
      rw [setPluginChannelCount_channelCount]
      exact setPluginChannelCount_row_length _ _ _ row hrow
  | trackChannelCount c =>
    refine ⟨?_, ?_, ?_, ?_⟩
    · exact setTrackChannelCount_pins_length _ _
    · exact setTrackChannelCount_pins_length _ _
    · intro row hrow
      show row.length = (s.mIn.setTrackChannelCount c).channelCount
      rw [setTrackChannelCount_channelCount]
      exact setTrackChannelCount_row_length _ _ h3 row hrow
    · intro row hrow
      show row.length = (s.mOut.setTrackChannelCount c).channelCount
      rw [setTrackChannelCount_channelCount]
      exact setTrackChannelCount_row_length _ _ h4 row hrow

/-- The dimension invariant holds along every mutation sequence. -/
theorem dimsInvariant_runOps (s : ConnectorState) (ops : List Op)
    (hs : dimsInvariant s) : dimsInvariant (runOps s ops) := by
  induction ops generalizing s with
  | nil => exact hs
  | cons op rest ih => exact ih _ (dimsInvariant_applyOp s op hs)

/-- The constructor establishes the dimension invariant. -/
theorem dimsInvariant_init (i o : Int) : dimsInvariant (initConnector i o) := by
  unfold initConnector
  have h0 : dimsInvariant (applyOp emptyConnector (Op.trackChannelCount 2)) :=
    dimsInvariant_applyOp _ _ dimsInvariant_empty
  by_cases hi : (0 : Int) ≤ i <;> by_cases ho : (0 : Int) ≤ o <;>
    simp only [hi, ho, if_true, if_false] <;>
    first
      | exact dimsInvariant_applyOp _ _ (dimsInvariant_applyOp _ _ h0)
      | exact dimsInvariant_applyOp _ _ h0
      | exact h0

/-- C6: after the constructor and any sequence of setter calls, each
matrix has one outer pin entry per track channel and every row is as
wide as that matrix's plugin channel count (cells are always defined:
the grids are total); moreover each resize preserves every cell whose
indices lie in both the old and the new range. -/
theorem C6_dimension_invariant (i o : Int) (ops : List Op) :
    ((runOps (initConnector i o) ops).mIn.pins.length =
        (runOps (initConnector i o) ops).trackChannels ∧
      (runOps (initConnector i o) ops).mOut.pins.length =
        (runOps (initConnector i o) ops).trackChannels ∧
      (∀ row ∈ (runOps (initConnector i o) ops).mIn.pins,
        row.length = (runOps (initConnector i o) ops).mIn.channelCount) ∧
      (∀ row ∈ (runOps (initConnector i o) ops).mOut.pins,
        row.length = (runOps (initConnector i o) ops).mOut.channelCount)) ∧
    (∀ (m : MatrixState) (tc c h p : Nat), p < m.channelCount → p < c →
      (m.setPluginChannelCount tc c).enabled h p = m.enabled h p) ∧
    (∀ (m : MatrixState) (c h p : Nat), h < m.pins.length → h < c →
      (m.setTrackChannelCount c).enabled h p = m.enabled h p) := by
  refine ⟨dimsInvariant_runOps _ ops (dimsInvariant_init i o), ?_, ?_⟩
  · intro m tc c h p hp1 hp2
    unfold MatrixState.setPluginChannelCount MatrixState.enabled
    rw [if_neg (by omega)]
    show (((m.pins.map fun row => resizeRow row c).getD h [])).getD p false =
      (m.pins.getD h []).getD p false
    by_cases hh : h < m.pins.length
    · have houter : (m.pins.map fun row => resizeRow row c).getD h [] =
          resizeRow (m.pins.getD h []) c := by
        rw [List.getD_eq_getElem _ _ (by simpa using hh), List.getElem_map _,
          List.getD_eq_getElem _ _ hh]
      rw [houter]
      unfold resizeRow
      rw [getD_range_map, if_pos hp2]
    · have houter : (m.pins.map fun row => resizeRow row c).getD h [] = [] :=
        List.getD_eq_default _ _ (by simpa using le_of_not_lt hh)
      have hrhs : m.pins.getD h [] = [] :=
        List.getD_eq_default _ _ (le_of_not_lt hh)
      rw [houter, hrhs]
  · intro m c h p hh1 hh2
    unfold MatrixState.setTrackChannelCount MatrixState.enabled
    rw [if_neg (by omega)]
    show ((((List.range c).map fun k =>
        m.pins.getD k (List.replicate m.channelCount false)).getD h [])).getD p false =
      (m.pins.getD h []).getD p false
    rw [getD_range_map, if_pos hh2, List.getD_eq_getElem _ _ hh1,
      List.getD_eq_getElem _ _ hh1]

/-- Witness for C6: dimensions of a concrete reachable state, and cell
preservation across concrete resizes. -/
theorem C6_witness :
    ((runOps (initConnector 2 2) [Op.pluginChannelCountOut 3]).mIn.pins.length =
        (runOps (initConnector 2 2) [Op.pluginChannelCountOut 3]).trackChannels) ∧
      ((sampleMatrix.setPluginChannelCount 2 3).enabled 0 0 = sampleMatrix.enabled 0 0) ∧
      ((sampleMatrix.setTrackChannelCount 3).enabled 1 0 = sampleMatrix.enabled 1 0) :=
  ⟨(C6_dimension_invariant 2 2 [Op.pluginChannelCountOut 3]).1.1,
    (C6_dimension_invariant 2 2 []).2.1 sampleMatrix 2 3 0 0 (by decide) (by decide),
    (C6_dimension_invariant 2 2 []).2.2 sampleMatrix 3 1 0 (by decide) (by decide)⟩

end Lmms
